import Mathlib

/-!
Verification of the pyxpal-color-preview extension core logic.

JavaScript strings are modelled as lists of UTF-16 code points (`List ℕ`);
`vscode.Color` is modelled with exact rational channels.  All definitions are
translated from `src/extension.js` and the snapshot variants in
`src/unnamed/part_000`.
-/

/-- Code points of a Lean string literal, used to write concrete JS strings. -/
def strCP (s : String) : List ℕ := s.data.map Char.toNat

/-- JS whitespace class (the set used by String.prototype.trim and by /\s/):
WhiteSpace, LineTerminator and the Unicode space separators. -/
def isWs (n : ℕ) : Bool :=
  decide (n = 9 ∨ n = 10 ∨ n = 11 ∨ n = 12 ∨ n = 13 ∨ n = 32 ∨ n = 160 ∨
    n = 0x1680 ∨ (0x2000 ≤ n ∧ n ≤ 0x200A) ∨ n = 0x2028 ∨ n = 0x2029 ∨
    n = 0x202F ∨ n = 0x205F ∨ n = 0x3000 ∨ n = 0xFEFF)

/-- The character class [0-9A-Fa-f] of the hex regexes. -/
def isHexClassCP (n : ℕ) : Bool :=
  decide ((48 ≤ n ∧ n ≤ 57) ∨ (65 ≤ n ∧ n ≤ 70) ∨ (97 ≤ n ∧ n ≤ 102))

/-- ASCII upper-casing of one code point, the canonicalisation used both by
the /i regex flag and by String.prototype.toUpperCase on ASCII data. -/
def asciiUpperCP (n : ℕ) : ℕ := if 97 ≤ n ∧ n ≤ 122 then n - 32 else n

/-- The canonicalised class {0-9, A-F}: image of [0-9A-Fa-f] under upper-casing. -/
def isUpperHexCP (n : ℕ) : Bool := decide ((48 ≤ n ∧ n ≤ 57) ∨ (65 ≤ n ∧ n ≤ 70))

/-- One code point matched against [0-9A-Fa-f] under the /i flag: the input is
canonicalised (upper-cased) and compared with the canonicalised class. -/
def matchHexCI (n : ℕ) : Bool := isUpperHexCP (asciiUpperCP n)

/-- Model of `/^[0-9A-Fa-f]{6}$/i.test(s)` (the classifier used by the
code lens, color provider and diagnostics paths, e.g. src/extension.js:104). -/
def hexRegexI (s : List ℕ) : Bool := s.length == 6 && s.all matchHexCI

/-- Model of `/^[0-9A-Fa-f]{6}$/.test(s)` (the decoration variant at
src/unnamed/part_000:304, no case-insensitive flag). -/
def hexRegexNoI (s : List ℕ) : Bool := s.length == 6 && s.all isHexClassCP

/-- JS String.prototype.toUpperCase restricted to the ASCII range (the only
range these programs ever upper-case). -/
def jsToUpper (s : List ℕ) : List ℕ := s.map asciiUpperCP

/-- Remove trailing JS whitespace, second half of String.prototype.trim. -/
def jsTrimEnd (s : List ℕ) : List ℕ := (s.reverse.dropWhile isWs).reverse

/-- Model of String.prototype.trim: drop leading and trailing JS whitespace. -/
def jsTrim (s : List ℕ) : List ℕ := jsTrimEnd (s.dropWhile isWs)

/-- JS String.prototype.substring(a, b) (for a ≤ b): code points a..b-1, clamped. -/
def substring (s : List ℕ) (a b : ℕ) : List ℕ := (s.take b).drop a

/-- Value of one hex digit code point, as interpreted by parseInt(·, 16). -/
def hexDigitVal (n : ℕ) : ℕ :=
  if n ≤ 57 then n - 48 else if n ≤ 70 then n - 55 else n - 87

/-- Accumulate the value of a run of hex digit code points, most significant first. -/
def hexDigitsVal (ds : List ℕ) : ℕ := ds.foldl (fun a d => 16 * a + hexDigitVal d) 0

/-- parseInt(·, 16) strips one leading "0x" or "0X" marker. -/
def stripHexMark (u : List ℕ) : List ℕ :=
  match u with
  | a :: b :: r => if a = 48 ∧ (b = 120 ∨ b = 88) then r else u
  | _ => u

/-- Longest hex-digit prefix value after the optional 0x marker; none when the
prefix is empty (parseInt's NaN). -/
def hexNatPart (u : List ℕ) : Option ℕ :=
  let ds := (stripHexMark u).takeWhile isHexClassCP
  if ds.isEmpty then none else some (hexDigitsVal ds)

/-- Model of JS parseInt(s, 16): skip leading whitespace, optional sign,
optional 0x marker, then the longest hex-digit prefix; NaN becomes none. -/
def parseIntHex (s : List ℕ) : Option ℤ :=
  match s.dropWhile isWs with
  | [] => none
  | c :: r =>
    if c = 43 then (hexNatPart r).map (fun n => (n : ℤ))
    else if c = 45 then (hexNatPart r).map (fun n => -(n : ℤ))
    else (hexNatPart (c :: r)).map (fun n => (n : ℤ))

/-- Model of vscode.Color with exact rational channels. -/
structure Color where
  red : ℚ
  green : ℚ
  blue : ℚ
  alpha : ℚ
deriving DecidableEq, Repr

/-- Model of parseHexColor (src/extension.js:11-16): parse the three
2-character substrings in base 16 and divide each by 255; alpha is 1.
A NaN channel (parseInt failure) is modelled as none. -/
def parseHexColor (hex : List ℕ) : Option Color :=
  match parseIntHex (substring hex 0 2), parseIntHex (substring hex 2 4),
      parseIntHex (substring hex 4 6) with
  | some r, some g, some b => some ⟨(r : ℚ) / 255, (g : ℚ) / 255, (b : ℚ) / 255, 1⟩
  | _, _, _ => none

/-- Model of JS Math.round: round half toward positive infinity. -/
def jsRound (q : ℚ) : ℤ := ⌊q + 1 / 2⌋

/-- Lower-case hex digit code point for a value below 16 (Number.toString(16)). -/
def hexLowerCP (v : ℕ) : ℕ := if v < 10 then 48 + v else 87 + v

/-- Upper-case hex digit code point for a value below 16. -/
def hexUpperCP (v : ℕ) : ℕ := if v < 10 then 48 + v else 55 + v

/-- Digit loop of Number.prototype.toString(16), structurally recursive on a
fuel argument so the kernel can evaluate it; fuel n + 1 always suffices since
n shrinks 16-fold each step. -/
def toString16Aux : ℕ → ℕ → List ℕ
  | 0, _ => []
  | fuel + 1, n =>
    if n < 16 then [hexLowerCP n]
    else toString16Aux fuel (n / 16) ++ [hexLowerCP (n % 16)]

/-- Model of Number.prototype.toString(16) on naturals: lower-case hex digits. -/
def toString16 (n : ℕ) : List ℕ := toString16Aux (n + 1) n

/-- Number.prototype.toString(16) on integers: minus sign for negatives. -/
def jsIntToString16 (i : ℤ) : List ℕ :=
  if i < 0 then 45 :: toString16 i.natAbs else toString16 i.toNat

/-- Digit loop of Number.prototype.toString(), structurally recursive on fuel. -/
def toString10Aux : ℕ → ℕ → List ℕ
  | 0, _ => []
  | fuel + 1, n =>
    if n < 10 then [48 + n]
    else toString10Aux fuel (n / 10) ++ [48 + n % 10]

/-- Model of Number.prototype.toString() on naturals: decimal digits. -/
def toString10 (n : ℕ) : List ℕ := toString10Aux (n + 1) n

/-- Model of String.prototype.padStart(len, c). -/
def padStart (s : List ℕ) (len : ℕ) (c : ℕ) : List ℕ :=
  List.replicate (len - s.length) c ++ s

/-- The per-byte helper toHex inside toHexColor (src/extension.js:28):
c.toString(16).padStart(2, "0").toUpperCase(). -/
def toHexByte (c : ℤ) : List ℕ := (padStart (jsIntToString16 c) 2 48).map asciiUpperCP

/-- Model of toHexColor (src/extension.js:23-31): round each channel times 255
and concatenate the three padded upper-case hex bytes. -/
def toHexColor (color : Color) : List ℕ :=
  toHexByte (jsRound (color.red * 255)) ++ toHexByte (jsRound (color.green * 255)) ++
    toHexByte (jsRound (color.blue * 255))

/-- The static fallback label table (src/extension.js:34-51). -/
def lineLabels : List (List ℕ) :=
  [strCP "pyxel.COLOR_BLACK", strCP "pyxel.COLOR_NAVY", strCP "pyxel.COLOR_PURPLE",
   strCP "pyxel.COLOR_GREEN", strCP "pyxel.COLOR_BROWN", strCP "pyxel.COLOR_DARK_BLUE",
   strCP "pyxel.COLOR_LIGHT_BLUE", strCP "pyxel.COLOR_WHITE", strCP "pyxel.COLOR_RED",
   strCP "pyxel.COLOR_ORANGE", strCP "pyxel.COLOR_YELLOW", strCP "pyxel.COLOR_LIME",
   strCP "pyxel.COLOR_CYAN", strCP "pyxel.COLOR_GRAY", strCP "pyxel.COLOR_PINK",
   strCP "pyxel.COLOR_PEACH"]

/-- A code lens as pushed by PyxpalCodeLensProvider.provideCodeLenses
(src/unnamed/part_000:113-158): its line, its title text and the text the
pyxpal.copyLabel command receives. -/
structure CodeLens where
  line : ℕ
  title : List ℕ
  arg : List ℕ
deriving DecidableEq, Repr

/-- Title of the index lens: "$(symbol-numeric) " followed by i.toString(). -/
def numTitle (i : ℕ) : List ℕ := strCP "$(symbol-numeric) " ++ toString10 i

/-- Title of the label lens: "$(symbol-enum-member) " followed by the label. -/
def labelTitle (lbl : List ℕ) : List ℕ := strCP "$(symbol-enum-member) " ++ lbl

/-- The label resolved for line i (src/unnamed/part_000:132-133): the python
constant mapped to the value i when the constants map is non-empty, else the
static table entry at position i. -/
def labelFor (constants : List (ℕ × List ℕ)) (i : ℕ) : Option (List ℕ) :=
  if 0 < constants.length then constants.lookup i else lineLabels[i]?

/-- The label lens pushed for line i when the resolved label is truthy
(JS: absent or empty labels are falsy and push nothing). -/
def labelLensList (i : ℕ) : Option (List ℕ) → List CodeLens
  | some lbl => if lbl.isEmpty then [] else [⟨i, labelTitle lbl, lbl⟩]
  | none => []

/-- Loop body of provideCodeLenses for line i: on a valid hex line push the
index lens and then the label lens when the resolved label is truthy. -/
def lensesForLine (lines : List (List ℕ)) (constants : List (ℕ × List ℕ)) (i : ℕ) :
    List CodeLens :=
  if hexRegexI (jsTrim (lines.getD i [])) then
    ⟨i, numTitle i, toString10 i⟩ :: labelLensList i (labelFor constants i)
  else []

/-- Model of the async PyxpalCodeLensProvider.provideCodeLenses
(src/unnamed/part_000:113-158), with the python constants map already read. -/
def provideCodeLenses (lines : List (List ℕ)) (constants : List (ℕ × List ℕ)) :
    List CodeLens :=
  (List.range lines.length).flatMap (lensesForLine lines constants)

/-- VS Code's TextLine.firstNonWhitespaceCharacterIndex: offset of the first
character not matching /\s/ (the line length when all whitespace). -/
def firstNonWsIndex (s : List ℕ) : ℕ := (s.takeWhile isWs).length

/-- A document color binding produced by provideDocumentColors
(src/extension.js:108-125): its line, column span and decoded color. -/
structure ColorInfo where
  line : ℕ
  startCol : ℕ
  endCol : ℕ
  color : Color
deriving DecidableEq, Repr

/-- Model of colorProvider.provideDocumentColors (src/extension.js:108-125). -/
def provideDocumentColors (lines : List (List ℕ)) : List ColorInfo :=
  (List.range lines.length).filterMap (fun i =>
    let text := jsTrim (lines.getD i [])
    if hexRegexI text then
      (parseHexColor text).map (fun c =>
        ⟨i, firstNonWsIndex (lines.getD i []),
         firstNonWsIndex (lines.getD i []) + text.length, c⟩)
    else none)

/-- The range handed to provideColorPresentations (the binding's span). -/
structure SpanRange where
  line : ℕ
  startCol : ℕ
  endCol : ℕ
deriving DecidableEq, Repr

/-- A color presentation: its label and the text edit it carries. -/
structure Presentation where
  label : List ℕ
  editRange : SpanRange
  newText : List ℕ
deriving DecidableEq, Repr

/-- Model of colorProvider.provideColorPresentations (src/extension.js:126-131):
one presentation whose label and replacement text are the encoded hex and whose
edit replaces exactly the context range. -/
def provideColorPresentations (color : Color) (ctxRange : SpanRange) : List Presentation :=
  [⟨toHexColor color, ctxRange, toHexColor color⟩]

/-- Diagnostic severity (vscode.DiagnosticSeverity). -/
inductive DiagSeverity where
  | error
  | warning
  | information
  | hint
deriving DecidableEq, Repr

/-- A diagnostic as built by updateDiagnostics (src/extension.js:153-190). -/
structure Diagnostic where
  line : ℕ
  startCol : ℕ
  endCol : ℕ
  severity : DiagSeverity
  message : List ℕ
deriving DecidableEq, Repr

/-- Default message of the invalid-line diagnostic (src/extension.js:176-179). -/
def invalidHexMessage : List ℕ := strCP "Meaningless data: Not a valid 6-digit HEX code."

/-- The downward loop of updateDiagnostics (src/extension.js:158-163) scanning
for the last line with non-empty trimmed content, starting at index m - 1. -/
def lastNonEmptyAux (lines : List (List ℕ)) : ℕ → ℤ
  | 0 => -1
  | m + 1 =>
    if 0 < (jsTrim (lines.getD m [])).length then (m : ℤ) else lastNonEmptyAux lines m

/-- Index of the last line with non-empty trimmed content, -1 when none. -/
def lastNonEmptyLine (lines : List (List ℕ)) : ℤ := lastNonEmptyAux lines lines.length

/-- Model of updateDiagnostics (src/extension.js:153-190): one warning per
line up to the last non-empty line whose trimmed text fails the hex regex. -/
def updateDiagnostics (lines : List (List ℕ)) : List Diagnostic :=
  (List.range (lastNonEmptyLine lines + 1).toNat).filterMap (fun i =>
    let text := jsTrim (lines.getD i [])
    if hexRegexI text then none
    else some ⟨i, 0, (lines.getD i []).length, DiagSeverity.warning, invalidHexMessage⟩)

/-- A user-visible notification shown by the copy command. -/
inductive Notification where
  | info (msg : List ℕ)
  | error (msg : List ℕ)
deriving DecidableEq, Repr

/-- Whether a notification is the error kind. -/
def Notification.isError : Notification → Bool
  | .info _ => false
  | .error _ => true

/-- The "Copied: {0}" confirmation text with the copied text substituted. -/
def copiedMsg (text : List ℕ) : List ℕ := strCP "Copied: " ++ text

/-- The "Failed to copy: {0}" text with the error message substituted. -/
def copyFailedMsg (err : List ℕ) : List ℕ := strCP "Failed to copy: " ++ err

/-- Model of the pyxpal.copyLabel handler of src/extension.js:95-101: the
clipboard write is fired without await and the confirmation is always shown;
the write outcome (first argument) influences nothing. -/
def copyLabelSync (writeSucceeds : Bool) (textToCopy : List ℕ) : List Notification :=
  [Notification.info (copiedMsg textToCopy)]

/-- Model of the pyxpal.copyLabel handler of src/unnamed/part_000:168-185:
the write is awaited inside try/catch; success shows the confirmation and a
rejection with message err shows the error notification instead. -/
def copyLabelAsync (writeSucceeds : Bool) (err : List ℕ) (textToCopy : List ℕ) :
    List Notification :=
  if writeSucceeds then [Notification.info (copiedMsg textToCopy)]
  else [Notification.error (copyFailedMsg err)]

/-! ### Character-level lemmas -/

theorem matchHexCI_eq_isHexClassCP (n : ℕ) : matchHexCI n = isHexClassCP n := by
  unfold matchHexCI isUpperHexCP isHexClassCP asciiUpperCP
  split_ifs with h <;> (rw [decide_eq_decide]) <;> omega

theorem isHexClassCP_not_ws {n : ℕ} (h : isHexClassCP n = true) : isWs n = false := by
  unfold isHexClassCP at h
  unfold isWs
  rw [decide_eq_true_eq] at h
  rw [decide_eq_false_iff_not]
  omega

theorem hexDigitVal_lt {n : ℕ} (h : isHexClassCP n = true) : hexDigitVal n < 16 := by
  unfold isHexClassCP at h
  rw [decide_eq_true_eq] at h
  unfold hexDigitVal
  split_ifs <;> omega

theorem isHexClassCP_hexUpperCP {v : ℕ} (h : v < 16) : isHexClassCP (hexUpperCP v) = true := by
  unfold isHexClassCP hexUpperCP
  split_ifs <;> (rw [decide_eq_true_eq]) <;> omega

theorem hexDigitVal_hexUpperCP {v : ℕ} (h : v < 16) : hexDigitVal (hexUpperCP v) = v := by
  unfold hexDigitVal hexUpperCP
  split_ifs <;> omega

theorem hexUpperCP_hexDigitVal {n : ℕ} (h : isHexClassCP n = true) :
    hexUpperCP (hexDigitVal n) = asciiUpperCP n := by
  unfold isHexClassCP at h
  rw [decide_eq_true_eq] at h
  unfold hexUpperCP hexDigitVal asciiUpperCP
  split_ifs <;> omega

theorem asciiUpperCP_hexLowerCP {v : ℕ} (h : v < 16) :
    asciiUpperCP (hexLowerCP v) = hexUpperCP v := by
  unfold asciiUpperCP hexLowerCP hexUpperCP
  split_ifs <;> omega

theorem hexUpperCP_range {v : ℕ} (h : v < 16) :
    (48 ≤ hexUpperCP v ∧ hexUpperCP v ≤ 57) ∨ (65 ≤ hexUpperCP v ∧ hexUpperCP v ≤ 70) := by
  unfold hexUpperCP
  split_ifs <;> omega

/-! ### parseInt and byte-encoding lemmas -/

theorem stripHexMark_two {d1 d2 : ℕ} (h1 : isHexClassCP d1 = true)
    (h2 : isHexClassCP d2 = true) : stripHexMark [d1, d2] = [d1, d2] := by
  have hb2 : (48 ≤ d2 ∧ d2 ≤ 57) ∨ (65 ≤ d2 ∧ d2 ≤ 70) ∨ (97 ≤ d2 ∧ d2 ≤ 102) := by
    have := h2; unfold isHexClassCP at this; exact of_decide_eq_true this
  simp only [stripHexMark]
  rw [if_neg (by omega)]

theorem hexNatPart_two {d1 d2 : ℕ} (h1 : isHexClassCP d1 = true)
    (h2 : isHexClassCP d2 = true) :
    hexNatPart [d1, d2] = some (16 * hexDigitVal d1 + hexDigitVal d2) := by
  unfold hexNatPart
  rw [stripHexMark_two h1 h2]
  rw [List.takeWhile_cons, h1]
  simp only [if_true]
  rw [List.takeWhile_cons, h2]
  simp only [if_true, List.takeWhile_nil]
  simp [hexDigitsVal]

theorem parseIntHex_two {d1 d2 : ℕ} (h1 : isHexClassCP d1 = true)
    (h2 : isHexClassCP d2 = true) :
    parseIntHex [d1, d2] = some ((16 * hexDigitVal d1 + hexDigitVal d2 : ℕ) : ℤ) := by
  have hb1 : (48 ≤ d1 ∧ d1 ≤ 57) ∨ (65 ≤ d1 ∧ d1 ≤ 70) ∨ (97 ≤ d1 ∧ d1 ≤ 102) := by
    have := h1; unfold isHexClassCP at this; exact of_decide_eq_true this
  unfold parseIntHex
  rw [List.dropWhile_cons]
  rw [isHexClassCP_not_ws h1]
  simp only [Bool.false_eq_true, if_false]
  rw [if_neg (by omega), if_neg (by omega)]
  rw [hexNatPart_two h1 h2]
  rfl

theorem toString16Aux_small {fuel n : ℕ} (h : n < 16) :
    toString16Aux (fuel + 1) n = [hexLowerCP n] := by
  unfold toString16Aux
  rw [if_pos h]

theorem toString16_small {n : ℕ} (h : n < 16) : toString16 n = [hexLowerCP n] :=
  toString16Aux_small h

theorem toString16_byte {n : ℕ} (h16 : 16 ≤ n) (h : n < 256) :
    toString16 n = [hexLowerCP (n / 16), hexLowerCP (n % 16)] := by
  unfold toString16 toString16Aux
  rw [if_neg (by omega)]
  rw [show n = (n - 1) + 1 by omega]
  rw [toString16Aux_small (by omega)]
  have h1 : (n - 1 + 1) / 16 = n / 16 := by omega
  have h2 : (n - 1 + 1) % 16 = n % 16 := by omega
  rw [h1, h2]
  rfl

theorem toHexByte_eq {n : ℕ} (h : n ≤ 255) :
    toHexByte ((n : ℕ) : ℤ) = [hexUpperCP (n / 16), hexUpperCP (n % 16)] := by
  have hj : jsIntToString16 ((n : ℕ) : ℤ) = toString16 n := by
    unfold jsIntToString16
    rw [if_neg (by omega)]
    simp
  unfold toHexByte
  rw [hj]
  rcases Nat.lt_or_ge n 16 with hlt | hge
  · rw [toString16_small hlt]
    unfold padStart
    simp only [List.length_cons, List.length_nil]
    have hrep : List.replicate (2 - 1) 48 = [48] := by decide
    rw [hrep]
    simp only [List.cons_append, List.nil_append, List.map_cons, List.map_nil]
    have h0 : asciiUpperCP 48 = 48 := by decide
    rw [h0, asciiUpperCP_hexLowerCP hlt]
    have hd : n / 16 = 0 := by omega
    have hm : n % 16 = n := by omega
    rw [hd, hm]
    have : hexUpperCP 0 = 48 := by decide
    rw [this]
  · rw [toString16_byte hge (by omega)]
    unfold padStart
    simp only [List.length_cons, List.length_nil]
    have hrep : List.replicate (2 - 2) 48 = ([] : List ℕ) := by decide
    rw [hrep]
    simp only [List.nil_append, List.map_cons, List.map_nil]
    rw [asciiUpperCP_hexLowerCP (by omega), asciiUpperCP_hexLowerCP (by omega)]

theorem toHexByte_length {n : ℕ} (h : n ≤ 255) : (toHexByte ((n : ℕ) : ℤ)).length = 2 := by
  rw [toHexByte_eq h]
  rfl

theorem jsRound_natCast (n : ℕ) : jsRound ((n : ℚ)) = (n : ℤ) := by
  unfold jsRound
  rw [Int.floor_eq_iff]
  constructor
  · push_cast
    linarith
  · push_cast
    linarith

theorem jsRound_channel (n : ℕ) : jsRound ((n : ℚ) / 255 * 255) = (n : ℤ) := by
  rw [div_mul_cancel₀ _ (by norm_num : (255 : ℚ) ≠ 0)]
  exact jsRound_natCast n

/-! ### Classifier and round-trip core -/

theorem hexRegexI_iff (s : List ℕ) :
    hexRegexI s = true ↔ s.length = 6 ∧ ∀ u ∈ s, isHexClassCP u = true := by
  unfold hexRegexI
  rw [Bool.and_eq_true, beq_iff_eq, List.all_eq_true]
  constructor
  · rintro ⟨hl, hall⟩
    exact ⟨hl, fun u hu => (matchHexCI_eq_isHexClassCP u) ▸ hall u hu⟩
  · rintro ⟨hl, hall⟩
    exact ⟨hl, fun u hu => (matchHexCI_eq_isHexClassCP u).symm ▸ hall u hu⟩

theorem exists_six_of_hexRegexI {s : List ℕ} (h : hexRegexI s = true) :
    ∃ a b c d e f, s = [a, b, c, d, e, f] := by
  obtain ⟨hl, -⟩ := (hexRegexI_iff s).mp h
  obtain ⟨a, t1, rfl⟩ := List.exists_of_length_succ s hl
  simp only [List.length_cons, Nat.succ_inj] at hl
  obtain ⟨b, t2, rfl⟩ := List.exists_of_length_succ t1 hl
  simp only [List.length_cons, Nat.succ_inj] at hl
  obtain ⟨c, t3, rfl⟩ := List.exists_of_length_succ t2 hl
  simp only [List.length_cons, Nat.succ_inj] at hl
  obtain ⟨d, t4, rfl⟩ := List.exists_of_length_succ t3 hl
  simp only [List.length_cons, Nat.succ_inj] at hl
  obtain ⟨e, t5, rfl⟩ := List.exists_of_length_succ t4 hl
  simp only [List.length_cons, Nat.succ_inj] at hl
  obtain ⟨f, t6, rfl⟩ := List.exists_of_length_succ t5 hl
  simp only [List.length_cons, Nat.succ_inj] at hl
  rw [List.length_eq_zero] at hl
  exact ⟨a, b, c, d, e, f, by rw [hl]⟩

theorem parseHexColor_six {a b c d e f : ℕ}
    (ha : isHexClassCP a = true) (hb : isHexClassCP b = true)
    (hc : isHexClassCP c = true) (hd : isHexClassCP d = true)
    (he : isHexClassCP e = true) (hf : isHexClassCP f = true) :
    parseHexColor [a, b, c, d, e, f] =
      some ⟨((16 * hexDigitVal a + hexDigitVal b : ℕ) : ℚ) / 255,
            ((16 * hexDigitVal c + hexDigitVal d : ℕ) : ℚ) / 255,
            ((16 * hexDigitVal e + hexDigitVal f : ℕ) : ℚ) / 255, 1⟩ := by
  have h1 : substring [a, b, c, d, e, f] 0 2 = [a, b] := rfl
  have h2 : substring [a, b, c, d, e, f] 2 4 = [c, d] := rfl
  have h3 : substring [a, b, c, d, e, f] 4 6 = [e, f] := rfl
  unfold parseHexColor
  rw [h1, h2, h3, parseIntHex_two ha hb, parseIntHex_two hc hd, parseIntHex_two he hf]
  simp

theorem byteVal_le {d1 d2 : ℕ} (h1 : isHexClassCP d1 = true) (h2 : isHexClassCP d2 = true) :
    16 * hexDigitVal d1 + hexDigitVal d2 ≤ 255 := by
  have := hexDigitVal_lt h1
  have := hexDigitVal_lt h2
  omega

theorem toHexByte_channel {n : ℕ} (h : n ≤ 255) :
    toHexByte (jsRound (((n : ℕ) : ℚ) / 255 * 255)) =
      [hexUpperCP (n / 16), hexUpperCP (n % 16)] := by
  rw [jsRound_channel, toHexByte_eq h]

theorem toHexByte_digits {d1 d2 : ℕ} (h1 : isHexClassCP d1 = true)
    (h2 : isHexClassCP d2 = true) :
    toHexByte (jsRound (((16 * hexDigitVal d1 + hexDigitVal d2 : ℕ) : ℚ) / 255 * 255)) =
      [asciiUpperCP d1, asciiUpperCP d2] := by
  have hv1 := hexDigitVal_lt h1
  have hv2 := hexDigitVal_lt h2
  rw [toHexByte_channel (byteVal_le h1 h2)]
  have hdiv : (16 * hexDigitVal d1 + hexDigitVal d2) / 16 = hexDigitVal d1 := by omega
  have hmod : (16 * hexDigitVal d1 + hexDigitVal d2) % 16 = hexDigitVal d2 := by omega
  rw [hdiv, hmod, hexUpperCP_hexDigitVal h1, hexUpperCP_hexDigitVal h2]

theorem roundtrip_six {a b c d e f : ℕ}
    (ha : isHexClassCP a = true) (hb : isHexClassCP b = true)
    (hc : isHexClassCP c = true) (hd : isHexClassCP d = true)
    (he : isHexClassCP e = true) (hf : isHexClassCP f = true) :
    toHexColor ⟨((16 * hexDigitVal a + hexDigitVal b : ℕ) : ℚ) / 255,
                ((16 * hexDigitVal c + hexDigitVal d : ℕ) : ℚ) / 255,
                ((16 * hexDigitVal e + hexDigitVal f : ℕ) : ℚ) / 255, 1⟩ =
      jsToUpper [a, b, c, d, e, f] := by
  unfold toHexColor
  simp only
  rw [toHexByte_digits ha hb, toHexByte_digits hc hd, toHexByte_digits he hf]
  rfl

theorem isHexClassCP_asciiUpper {n : ℕ} (h : isHexClassCP n = true) :
    isHexClassCP (asciiUpperCP n) = true := by
  rw [← hexUpperCP_hexDigitVal h]
  exact isHexClassCP_hexUpperCP (hexDigitVal_lt h)

theorem hexDigitVal_asciiUpper {n : ℕ} (h : isHexClassCP n = true) :
    hexDigitVal (asciiUpperCP n) = hexDigitVal n := by
  rw [← hexUpperCP_hexDigitVal h]
  exact hexDigitVal_hexUpperCP (hexDigitVal_lt h)

/-! ### Claim theorems -/

/-- Claim C1: for every 6-character string over [0-9A-Fa-f], encoding the
decoded color reproduces the same three byte values as the input exactly
(hence within the allowed 1 unit per channel), independent of the case of the
input letters: the re-encoded string is the upper-casing of the input and each
of its three 2-character bytes parses to the same value as the input byte.  In
particular "FF00AA" decodes to (1, 0, 170/255) with 170/255 within 0.001 of
0.667, and re-encodes to "FF00AA". -/
theorem decode_encode_roundtrip (s : List ℕ) (h : hexRegexI s = true) :
    (∃ c, parseHexColor s = some c ∧ toHexColor c = jsToUpper s ∧
      parseIntHex (substring (toHexColor c) 0 2) = parseIntHex (substring s 0 2) ∧
      parseIntHex (substring (toHexColor c) 2 4) = parseIntHex (substring s 2 4) ∧
      parseIntHex (substring (toHexColor c) 4 6) = parseIntHex (substring s 4 6)) ∧
    parseHexColor (strCP "FF00AA") = some ⟨1, 0, 170 / 255, 1⟩ ∧
    toHexColor ⟨1, 0, 170 / 255, 1⟩ = strCP "FF00AA" ∧
    |(170 : ℚ) / 255 - 667 / 1000| < 1 / 1000 := by
  obtain ⟨a, b, c, d, e, f, rfl⟩ := exists_six_of_hexRegexI h
  obtain ⟨-, hall⟩ := (hexRegexI_iff _).mp h
  have ha := hall a (by simp)
  have hb := hall b (by simp)
  have hc := hall c (by simp)
  have hd := hall d (by simp)
  have he := hall e (by simp)
  have hf := hall f (by simp)
  refine ⟨⟨_, parseHexColor_six ha hb hc hd he hf, roundtrip_six ha hb hc hd he hf, ?_, ?_, ?_⟩,
    ?_, ?_, ?_⟩
  · rw [roundtrip_six ha hb hc hd he hf]
    show parseIntHex [asciiUpperCP a, asciiUpperCP b] = parseIntHex [a, b]
    rw [parseIntHex_two (isHexClassCP_asciiUpper ha) (isHexClassCP_asciiUpper hb),
      parseIntHex_two ha hb, hexDigitVal_asciiUpper ha, hexDigitVal_asciiUpper hb]
  · rw [roundtrip_six ha hb hc hd he hf]
    show parseIntHex [asciiUpperCP c, asciiUpperCP d] = parseIntHex [c, d]
    rw [parseIntHex_two (isHexClassCP_asciiUpper hc) (isHexClassCP_asciiUpper hd),
      parseIntHex_two hc hd, hexDigitVal_asciiUpper hc, hexDigitVal_asciiUpper hd]
  · rw [roundtrip_six ha hb hc hd he hf]
    show parseIntHex [asciiUpperCP e, asciiUpperCP f] = parseIntHex [e, f]
    rw [parseIntHex_two (isHexClassCP_asciiUpper he) (isHexClassCP_asciiUpper hf),
      parseIntHex_two he hf, hexDigitVal_asciiUpper he, hexDigitVal_asciiUpper hf]
  · have hFF : strCP "FF00AA" = [70, 70, 48, 48, 65, 65] := by decide
    rw [hFF, parseHexColor_six (by decide) (by decide) (by decide) (by decide) (by decide)
      (by decide)]
    norm_num [hexDigitVal]
  · have h255 : jsRound ((1 : ℚ) * 255) = ((255 : ℕ) : ℤ) := by
      norm_num [jsRound]
    have h0 : jsRound ((0 : ℚ) * 255) = ((0 : ℕ) : ℤ) := by
      norm_num [jsRound]
    have h170 : jsRound ((170 : ℚ) / 255 * 255) = ((170 : ℕ) : ℤ) := by
      norm_num [jsRound]
    show toHexByte (jsRound ((1 : ℚ) * 255)) ++ toHexByte (jsRound ((0 : ℚ) * 255)) ++
      toHexByte (jsRound ((170 : ℚ) / 255 * 255)) = strCP "FF00AA"
    rw [h255, h0, h170, toHexByte_eq (by norm_num), toHexByte_eq (by norm_num),
      toHexByte_eq (by norm_num)]
    decide
  · rw [abs_lt]
    norm_num

/-- Witness for C1 at the lower-case input "ff00aa". -/
theorem decode_encode_roundtrip_witness :
    ∃ c, parseHexColor (strCP "ff00aa") = some c ∧
      toHexColor c = jsToUpper (strCP "ff00aa") := by
  obtain ⟨⟨c, hc1, hc2, -, -, -⟩, -, -, -⟩ := decode_encode_roundtrip (strCP "ff00aa") (by decide)
  exact ⟨c, hc1, hc2⟩

/-- Claim C4: decode splits a valid 6-character hex string into three
2-character bytes parsed base-16 to values at most 255, divides each by 255,
so each channel is an integer 0-255 over 255 and lies in [0, 1]; alpha is 1. -/
theorem parseHexColor_spec (s : List ℕ) (h : hexRegexI s = true) :
    ∃ n1 n2 n3 : ℕ, n1 ≤ 255 ∧ n2 ≤ 255 ∧ n3 ≤ 255 ∧
      parseIntHex (substring s 0 2) = some ((n1 : ℕ) : ℤ) ∧
      parseIntHex (substring s 2 4) = some ((n2 : ℕ) : ℤ) ∧
      parseIntHex (substring s 4 6) = some ((n3 : ℕ) : ℤ) ∧
      parseHexColor s = some ⟨(n1 : ℚ) / 255, (n2 : ℚ) / 255, (n3 : ℚ) / 255, 1⟩ ∧
      0 ≤ (n1 : ℚ) / 255 ∧ (n1 : ℚ) / 255 ≤ 1 ∧
      0 ≤ (n2 : ℚ) / 255 ∧ (n2 : ℚ) / 255 ≤ 1 ∧
      0 ≤ (n3 : ℚ) / 255 ∧ (n3 : ℚ) / 255 ≤ 1 := by
  obtain ⟨a, b, c, d, e, f, rfl⟩ := exists_six_of_hexRegexI h
  obtain ⟨-, hall⟩ := (hexRegexI_iff _).mp h
  have ha := hall a (by simp)
  have hb := hall b (by simp)
  have hc := hall c (by simp)
  have hd := hall d (by simp)
  have he := hall e (by simp)
  have hf := hall f (by simp)
  refine ⟨16 * hexDigitVal a + hexDigitVal b, 16 * hexDigitVal c + hexDigitVal d,
    16 * hexDigitVal e + hexDigitVal f, byteVal_le ha hb, byteVal_le hc hd, byteVal_le he hf,
    parseIntHex_two ha hb, parseIntHex_two hc hd, parseIntHex_two he hf,
    parseHexColor_six ha hb hc hd he hf, ?_, ?_, ?_, ?_, ?_, ?_⟩
  · positivity
  · rw [div_le_one (by norm_num)]
    exact_mod_cast byteVal_le ha hb
  · positivity
  · rw [div_le_one (by norm_num)]
    exact_mod_cast byteVal_le hc hd
  · positivity
  · rw [div_le_one (by norm_num)]
    exact_mod_cast byteVal_le he hf

/-- Witness for C4 at "FF00AA". -/
theorem parseHexColor_spec_witness :
    ∃ c, parseHexColor (strCP "FF00AA") = some c := by
  obtain ⟨n1, n2, n3, -, -, -, -, -, -, hp, -⟩ := parseHexColor_spec (strCP "FF00AA") (by decide)
  exact ⟨_, hp⟩

/-- Claim C2: the line classifier accepts exactly the strings of six
characters from [0-9A-Fa-f]; every other string — wrong length (empty,
shorter, longer), containing the code point of a hash sign (35), or containing
any whitespace character — is rejected. -/
theorem hexRegexI_spec (s : List ℕ) :
    (hexRegexI s = true ↔ s.length = 6 ∧ ∀ u ∈ s, isHexClassCP u = true) ∧
    (s.length ≠ 6 → hexRegexI s = false) ∧
    ((35 : ℕ) ∈ s → hexRegexI s = false) ∧
    ((∃ u ∈ s, isWs u = true) → hexRegexI s = false) := by
  refine ⟨hexRegexI_iff s, ?_, ?_, ?_⟩
  · intro hlen
    rw [← Bool.not_eq_true]
    intro hmem
    exact hlen ((hexRegexI_iff s).mp hmem).1
  · intro hmem
    rw [← Bool.not_eq_true]
    intro hacc
    have h35 := ((hexRegexI_iff s).mp hacc).2 35 hmem
    have : ¬((48 ≤ 35 ∧ 35 ≤ 57) ∨ (65 ≤ 35 ∧ 35 ≤ 70) ∨ (97 ≤ 35 ∧ 35 ≤ 102)) := by omega
    exact this (of_decide_eq_true h35)
  · rintro ⟨u, hu, hw⟩
    rw [← Bool.not_eq_true]
    intro hacc
    have hhex := ((hexRegexI_iff s).mp hacc).2 u hu
    rw [isHexClassCP_not_ws hhex] at hw
    exact Bool.false_ne_true hw

/-- Witness for C2: "12345" (five characters) is rejected. -/
theorem hexRegexI_spec_witness : hexRegexI (strCP "12345") = false :=
  (hexRegexI_spec (strCP "12345")).2.1 (by decide)

/-- Claim C10: the decoration variant's regex without the /i flag accepts
exactly the same strings as the case-insensitive one used everywhere else,
because the class [0-9A-Fa-f] is closed under case folding. -/
theorem hexRegex_flag_equiv (s : List ℕ) : hexRegexI s = hexRegexNoI s := by
  unfold hexRegexI hexRegexNoI
  congr 1
  induction s with
  | nil => rfl
  | cons u t ih => simp only [List.all_cons, ih, matchHexCI_eq_isHexClassCP]

theorem jsRound_nonneg {q : ℚ} (h : 0 ≤ q) : 0 ≤ jsRound q := by
  unfold jsRound
  rw [Int.floor_nonneg]
  linarith

theorem jsRound_le_255 {q : ℚ} (h : q ≤ 255) : jsRound q ≤ 255 := by
  unfold jsRound
  have h1 : ⌊q + 1 / 2⌋ ≤ ⌊(255 : ℚ) + 1 / 2⌋ := Int.floor_le_floor (by linarith)
  have h2 : ⌊(255 : ℚ) + 1 / 2⌋ = 255 := by
    rw [Int.floor_eq_iff]
    norm_num
  omega

theorem channel_byte_bounds {q : ℚ} (h0 : 0 ≤ q) (h1 : q ≤ 1) :
    ∃ n : ℕ, n ≤ 255 ∧ jsRound (q * 255) = ((n : ℕ) : ℤ) := by
  have hlo : (0 : ℤ) ≤ jsRound (q * 255) := jsRound_nonneg (by positivity)
  have hhi : jsRound (q * 255) ≤ 255 := jsRound_le_255 (by nlinarith)
  exact ⟨(jsRound (q * 255)).toNat, by omega, (Int.toNat_of_nonneg hlo).symm⟩

/-- Claim C5: for a color with channels in [0, 1], toHexColor rounds each
channel times 255 to an integer 0-255, formats each as a zero-padded 2-digit
hex number and concatenates the three; every character of the output is a
digit or an upper-case letter A-F, so the letter case is fixed upper-case and
never depends on the input. -/
theorem toHexColor_spec (c : Color)
    (h0r : 0 ≤ c.red) (h1r : c.red ≤ 1) (h0g : 0 ≤ c.green) (h1g : c.green ≤ 1)
    (h0b : 0 ≤ c.blue) (h1b : c.blue ≤ 1) :
    ∃ nr ng nb : ℕ, nr ≤ 255 ∧ ng ≤ 255 ∧ nb ≤ 255 ∧
      jsRound (c.red * 255) = ((nr : ℕ) : ℤ) ∧
      jsRound (c.green * 255) = ((ng : ℕ) : ℤ) ∧
      jsRound (c.blue * 255) = ((nb : ℕ) : ℤ) ∧
      toHexColor c = [hexUpperCP (nr / 16), hexUpperCP (nr % 16),
        hexUpperCP (ng / 16), hexUpperCP (ng % 16),
        hexUpperCP (nb / 16), hexUpperCP (nb % 16)] ∧
      ∀ u ∈ toHexColor c, (48 ≤ u ∧ u ≤ 57) ∨ (65 ≤ u ∧ u ≤ 70) := by
  obtain ⟨nr, hnr, hr⟩ := channel_byte_bounds h0r h1r
  obtain ⟨ng, hng, hg⟩ := channel_byte_bounds h0g h1g
  obtain ⟨nb, hnb, hb⟩ := channel_byte_bounds h0b h1b
  have hout : toHexColor c = [hexUpperCP (nr / 16), hexUpperCP (nr % 16),
      hexUpperCP (ng / 16), hexUpperCP (ng % 16),
      hexUpperCP (nb / 16), hexUpperCP (nb % 16)] := by
    unfold toHexColor
    rw [hr, hg, hb, toHexByte_eq hnr, toHexByte_eq hng, toHexByte_eq hnb]
    rfl
  refine ⟨nr, ng, nb, hnr, hng, hnb, hr, hg, hb, hout, ?_⟩
  intro u hu
  rw [hout] at hu
  simp only [List.mem_cons, List.not_mem_nil, or_false] at hu
  rcases hu with rfl | rfl | rfl | rfl | rfl | rfl <;>
    exact hexUpperCP_range (by omega)

/-- Witness for C5 at the pure blue color (0, 0, 1, 1). -/
theorem toHexColor_spec_witness :
    ∃ nr ng nb : ℕ, nr ≤ 255 ∧ ng ≤ 255 ∧ nb ≤ 255 ∧
      jsRound ((Color.mk 0 0 1 1).red * 255) = ((nr : ℕ) : ℤ) ∧
      jsRound ((Color.mk 0 0 1 1).green * 255) = ((ng : ℕ) : ℤ) ∧
      jsRound ((Color.mk 0 0 1 1).blue * 255) = ((nb : ℕ) : ℤ) ∧
      toHexColor (Color.mk 0 0 1 1) = [hexUpperCP (nr / 16), hexUpperCP (nr % 16),
        hexUpperCP (ng / 16), hexUpperCP (ng % 16),
        hexUpperCP (nb / 16), hexUpperCP (nb % 16)] ∧
      ∀ u ∈ toHexColor (Color.mk 0 0 1 1), (48 ≤ u ∧ u ≤ 57) ∨ (65 ≤ u ∧ u ≤ 70) :=
  toHexColor_spec (Color.mk 0 0 1 1) (le_refl 0) zero_le_one (le_refl 0) zero_le_one
    zero_le_one (le_refl 1)

/-- Claim C9: for a color with channels in [0, 1], toHexColor always returns
exactly 6 characters: each rounded channel is 0-255, whose zero-padded hex
form is exactly two characters. -/
theorem toHexColor_length (c : Color)
    (h0r : 0 ≤ c.red) (h1r : c.red ≤ 1) (h0g : 0 ≤ c.green) (h1g : c.green ≤ 1)
    (h0b : 0 ≤ c.blue) (h1b : c.blue ≤ 1) : (toHexColor c).length = 6 := by
  obtain ⟨nr, hnr, hr⟩ := channel_byte_bounds h0r h1r
  obtain ⟨ng, hng, hg⟩ := channel_byte_bounds h0g h1g
  obtain ⟨nb, hnb, hb⟩ := channel_byte_bounds h0b h1b
  unfold toHexColor
  rw [hr, hg, hb]
  simp only [List.length_append]
  rw [toHexByte_length hnr, toHexByte_length hng, toHexByte_length hnb]

/-- Witness for C9 at the pure red color (1, 0, 0, 1). -/
theorem toHexColor_length_witness :
    (toHexColor (Color.mk 1 0 0 1)).length = 6 :=
  toHexColor_length (Color.mk 1 0 0 1) zero_le_one (le_refl 1) (le_refl 0)
    zero_le_one (le_refl 0) zero_le_one

theorem map_line_filterMap {β : Type} (F : ℕ → Option β) (g : β → ℕ)
    (hF : ∀ i b, F i = some b → g b = i) :
    ∀ l : List ℕ, (l.filterMap F).map g = l.filter (fun i => (F i).isSome) := by
  intro l
  induction l with
  | nil => rfl
  | cons a t ih =>
    cases hFa : F a with
    | none =>
      simp only [List.filterMap_cons, List.filter_cons, hFa, Option.isSome_none,
        Bool.false_eq_true, if_false]
      exact ih
    | some b =>
      simp only [List.filterMap_cons, List.filter_cons, hFa, Option.isSome_some, if_true,
        List.map_cons]
      rw [ih, hF a b hFa]

theorem jsTrim_nil : jsTrim [] = [] := rfl

theorem lastNonEmptyAux_spec (lines : List (List ℕ)) (k : ℕ)
    (hk : 0 < (jsTrim (lines.getD k [])).length)
    (hafter : ∀ j, k < j → (jsTrim (lines.getD j [])).length = 0) :
    ∀ m, k < m → lastNonEmptyAux lines m = (k : ℤ) := by
  intro m
  induction m with
  | zero => omega
  | succ m ih =>
    intro hkm
    unfold lastNonEmptyAux
    rcases Nat.lt_or_ge k m with hlt | hge
    · rw [if_neg (by rw [hafter m hlt]; omega)]
      exact ih hlt
    · have hmk : m = k := by omega
      rw [hmk, if_pos hk]

theorem lastNonEmptyLine_eq (lines : List (List ℕ)) (k : ℕ) (hk : k < lines.length)
    (hne : jsTrim (lines.getD k []) ≠ [])
    (hafter : ∀ j, k < j → j < lines.length → jsTrim (lines.getD j []) = []) :
    lastNonEmptyLine lines = (k : ℤ) := by
  apply lastNonEmptyAux_spec lines k (by
    rcases Nat.eq_zero_or_pos (jsTrim (lines.getD k [])).length with h0 | hpos
    · exact absurd (List.length_eq_zero.mp h0) hne
    · exact hpos)
  · intro j hj
    rcases Nat.lt_or_ge j lines.length with hlt | hge
    · rw [hafter j hj hlt]
      rfl
    · rw [List.getD_eq_default _ _ hge, jsTrim_nil]
      rfl
  · exact hk

/-- The per-line option produced by the loop body of updateDiagnostics. -/
def diagAt (lines : List (List ℕ)) (i : ℕ) : Option Diagnostic :=
  if hexRegexI (jsTrim (lines.getD i [])) = true then none
  else some ⟨i, 0, (lines.getD i []).length, DiagSeverity.warning, invalidHexMessage⟩

theorem updateDiagnostics_eq (lines : List (List ℕ)) :
    updateDiagnostics lines =
      (List.range (lastNonEmptyLine lines + 1).toNat).filterMap (diagAt lines) := rfl

theorem diagAt_some {lines : List (List ℕ)} {i : ℕ} {d : Diagnostic}
    (h : diagAt lines i = some d) :
    hexRegexI (jsTrim (lines.getD i [])) = false ∧
      d = ⟨i, 0, (lines.getD i []).length, DiagSeverity.warning, invalidHexMessage⟩ := by
  by_cases hhex : hexRegexI (jsTrim (lines.getD i [])) = true
  · rw [diagAt, if_pos hhex] at h
    exact Option.noConfusion h
  · rw [diagAt, if_neg hhex] at h
    rw [Bool.not_eq_true] at hhex
    exact ⟨hhex, (Option.some_inj.mp h).symm⟩

/-- Claim C3: when the last line with non-blank trimmed content is at index k,
updateDiagnostics emits exactly one warning-severity marker for each line at
an index up to k whose trimmed text fails the classifier, and none for any
line beyond k regardless of content. -/
theorem updateDiagnostics_spec (lines : List (List ℕ)) (k : ℕ) (hk : k < lines.length)
    (hne : jsTrim (lines.getD k []) ≠ [])
    (hafter : ∀ j, k < j → j < lines.length → jsTrim (lines.getD j []) = []) :
    (∀ d ∈ updateDiagnostics lines, d.severity = DiagSeverity.warning) ∧
    (∀ i : ℕ, (∃ d ∈ updateDiagnostics lines, d.line = i) ↔
      (i ≤ k ∧ hexRegexI (jsTrim (lines.getD i [])) = false)) ∧
    ((updateDiagnostics lines).map Diagnostic.line).Nodup := by
  have hlast : (lastNonEmptyLine lines + 1).toNat = k + 1 := by
    rw [lastNonEmptyLine_eq lines k hk hne hafter]
    omega
  have hUD : updateDiagnostics lines = (List.range (k + 1)).filterMap (diagAt lines) := by
    rw [updateDiagnostics_eq, hlast]
  refine ⟨?_, ?_, ?_⟩
  · intro d hd
    rw [hUD, List.mem_filterMap] at hd
    obtain ⟨i, -, hFi⟩ := hd
    rw [(diagAt_some hFi).2]
  · intro i
    constructor
    · rintro ⟨d, hd, rfl⟩
      rw [hUD, List.mem_filterMap] at hd
      obtain ⟨j, hj, hFj⟩ := hd
      rw [List.mem_range] at hj
      obtain ⟨hhex, rfl⟩ := diagAt_some hFj
      show j ≤ k ∧ hexRegexI (jsTrim (lines.getD j [])) = false
      exact ⟨by omega, hhex⟩
    · rintro ⟨hik, hhex⟩
      refine ⟨⟨i, 0, (lines.getD i []).length, DiagSeverity.warning, invalidHexMessage⟩,
        ?_, rfl⟩
      rw [hUD, List.mem_filterMap]
      refine ⟨i, List.mem_range.mpr (by omega), ?_⟩
      rw [diagAt, if_neg (by rw [hhex]; exact Bool.false_ne_true)]
  · rw [hUD, map_line_filterMap _ _ (fun i d hFi => by rw [(diagAt_some hFi).2])]
    exact (List.nodup_range _).filter _

/-- Witness for C3 at the document ["FF0000", "", "00FF00"]: the blank middle
line is within the used range and receives a marker. -/
theorem updateDiagnostics_spec_witness :
    ∃ d ∈ updateDiagnostics [strCP "FF0000", strCP "", strCP "00FF00"], d.line = 1 :=
  ((updateDiagnostics_spec [strCP "FF0000", strCP "", strCP "00FF00"] 2 (by decide)
    (by decide)
    (by
      intro j h1 h2
      simp only [List.length_cons, List.length_nil] at h2
      omega)).2.1 1).mpr (by decide)

theorem jsTrimEnd_decomp (s : List ℕ) : ∃ t, s = jsTrimEnd s ++ t := by
  have h2 := congrArg List.reverse (List.takeWhile_append_dropWhile isWs s.reverse)
  rw [List.reverse_append, List.reverse_reverse] at h2
  exact ⟨(s.reverse.takeWhile isWs).reverse, h2.symm⟩

theorem substring_append (a w t : List ℕ) :
    substring (a ++ (w ++ t)) a.length (a.length + w.length) = w := by
  unfold substring
  rw [List.take_append_eq_append_take]
  rw [List.take_of_length_le (by omega)]
  rw [show a.length + w.length - a.length = w.length by omega]
  rw [List.take_left]
  rw [List.drop_left]

theorem substring_trim_span (s : List ℕ) :
    substring s (firstNonWsIndex s) (firstNonWsIndex s + (jsTrim s).length) = jsTrim s := by
  obtain ⟨t, ht⟩ := jsTrimEnd_decomp (s.dropWhile isWs)
  have hsplit : s = s.takeWhile isWs ++ (jsTrim s ++ t) := by
    conv_lhs => rw [← List.takeWhile_append_dropWhile isWs s]
    rw [ht]
    rfl
  calc substring s (firstNonWsIndex s) (firstNonWsIndex s + (jsTrim s).length)
      = substring (s.takeWhile isWs ++ (jsTrim s ++ t)) (s.takeWhile isWs).length
          ((s.takeWhile isWs).length + (jsTrim s).length) := by rw [← hsplit]; rfl
    _ = jsTrim s := substring_append _ _ _

/-- The per-line option produced by the loop body of provideDocumentColors. -/
def colorAt (lines : List (List ℕ)) (i : ℕ) : Option ColorInfo :=
  if hexRegexI (jsTrim (lines.getD i [])) = true then
    (parseHexColor (jsTrim (lines.getD i []))).map (fun c =>
      ⟨i, firstNonWsIndex (lines.getD i []),
       firstNonWsIndex (lines.getD i []) + (jsTrim (lines.getD i [])).length, c⟩)
  else none

theorem provideDocumentColors_eq (lines : List (List ℕ)) :
    provideDocumentColors lines = (List.range lines.length).filterMap (colorAt lines) := rfl

theorem colorAt_some {lines : List (List ℕ)} {i : ℕ} {info : ColorInfo}
    (h : colorAt lines i = some info) :
    hexRegexI (jsTrim (lines.getD i [])) = true ∧
      ∃ c, parseHexColor (jsTrim (lines.getD i [])) = some c ∧
        info = ⟨i, firstNonWsIndex (lines.getD i []),
          firstNonWsIndex (lines.getD i []) + (jsTrim (lines.getD i [])).length, c⟩ := by
  by_cases hhex : hexRegexI (jsTrim (lines.getD i [])) = true
  · rw [colorAt, if_pos hhex] at h
    rw [Option.map_eq_some'] at h
    obtain ⟨c, hc, hinfo⟩ := h
    exact ⟨hhex, c, hc, hinfo.symm⟩
  · rw [colorAt, if_neg hhex] at h
    exact Option.noConfusion h

theorem parseHexColor_isSome {s : List ℕ} (h : hexRegexI s = true) :
    ∃ c, parseHexColor s = some c := by
  obtain ⟨a, b, c, d, e, f, rfl⟩ := exists_six_of_hexRegexI h
  obtain ⟨-, hall⟩ := (hexRegexI_iff _).mp h
  exact ⟨_, parseHexColor_six (hall a (by simp)) (hall b (by simp)) (hall c (by simp))
    (hall d (by simp)) (hall e (by simp)) (hall f (by simp))⟩

/-- Claim C7: the color-picker adapter produces one binding per valid line and
only for valid lines; each binding spans exactly the line's trimmed text
(starting at the first non-whitespace column, extending its length, and the
characters in that span are the trimmed text) with the decoded color; and a
replacement color is answered by exactly one presentation whose text edit
replaces exactly the given span with the canonical encoded hex string. -/
theorem colorProvider_spec (lines : List (List ℕ)) :
    (∀ info ∈ provideDocumentColors lines,
      info.line < lines.length ∧
      hexRegexI (jsTrim (lines.getD info.line [])) = true ∧
      info.startCol = firstNonWsIndex (lines.getD info.line []) ∧
      info.endCol = info.startCol + (jsTrim (lines.getD info.line [])).length ∧
      parseHexColor (jsTrim (lines.getD info.line [])) = some info.color ∧
      substring (lines.getD info.line []) info.startCol info.endCol =
        jsTrim (lines.getD info.line [])) ∧
    (∀ i, i < lines.length → hexRegexI (jsTrim (lines.getD i [])) = true →
      ∃ info ∈ provideDocumentColors lines, info.line = i) ∧
    ((provideDocumentColors lines).map ColorInfo.line).Nodup ∧
    (∀ (color : Color) (r : SpanRange),
      provideColorPresentations color r = [⟨toHexColor color, r, toHexColor color⟩]) := by
  refine ⟨?_, ?_, ?_, fun color r => rfl⟩
  · intro info hinfo
    rw [provideDocumentColors_eq, List.mem_filterMap] at hinfo
    obtain ⟨i, hi, hFi⟩ := hinfo
    rw [List.mem_range] at hi
    obtain ⟨hhex, c, hc, rfl⟩ := colorAt_some hFi
    exact ⟨hi, hhex, rfl, rfl, hc, substring_trim_span _⟩
  · intro i hi hhex
    obtain ⟨c, hc⟩ := parseHexColor_isSome hhex
    refine ⟨⟨i, firstNonWsIndex (lines.getD i []),
      firstNonWsIndex (lines.getD i []) + (jsTrim (lines.getD i [])).length, c⟩, ?_, rfl⟩
    rw [provideDocumentColors_eq, List.mem_filterMap]
    refine ⟨i, List.mem_range.mpr hi, ?_⟩
    rw [colorAt, if_pos hhex, hc]
    rfl
  · rw [provideDocumentColors_eq, map_line_filterMap _ _ (fun i info hFi => by
      obtain ⟨-, c, -, rfl⟩ := colorAt_some hFi
      rfl)]
    exact (List.nodup_range _).filter _

/-- Witness for C7 at the one-line document ["  FF00AA"]. -/
theorem colorProvider_spec_witness :
    ∃ info ∈ provideDocumentColors [strCP "  FF00AA"], info.line = 0 :=
  (colorProvider_spec [strCP "  FF00AA"]).2.1 0 (by decide) (by decide)

theorem labelLensList_mem {i : ℕ} {o : Option (List ℕ)} {l : CodeLens}
    (h : l ∈ labelLensList i o) : ∃ lbl, o = some lbl ∧ l = ⟨i, labelTitle lbl, lbl⟩ := by
  cases o with
  | none => exact absurd h (List.not_mem_nil l)
  | some lbl =>
    simp only [labelLensList] at h
    by_cases hemp : lbl.isEmpty
    · rw [if_pos hemp] at h
      exact absurd h (List.not_mem_nil l)
    · rw [if_neg hemp] at h
      rcases List.mem_cons.mp h with rfl | h2
      · exact ⟨lbl, rfl, rfl⟩
      · exact absurd h2 (List.not_mem_nil l)

theorem lensesForLine_line {lines : List (List ℕ)} {constants : List (ℕ × List ℕ)}
    {i : ℕ} {l : CodeLens} (h : l ∈ lensesForLine lines constants i) : l.line = i := by
  unfold lensesForLine at h
  by_cases hhex : hexRegexI (jsTrim (lines.getD i [])) = true
  · rw [if_pos hhex] at h
    rcases List.mem_cons.mp h with rfl | h2
    · rfl
    · obtain ⟨lbl, -, rfl⟩ := labelLensList_mem h2
      rfl
  · rw [if_neg hhex] at h
    exact absurd h (List.not_mem_nil l)

theorem filter_line_flatMap (f : ℕ → List CodeLens)
    (hf : ∀ j l, l ∈ f j → l.line = j) :
    ∀ L : List ℕ, L.Nodup → ∀ i,
      ((L.flatMap f).filter (fun l => l.line == i)) = if i ∈ L then f i else [] := by
  intro L
  induction L with
  | nil => intro _ i; simp
  | cons j rest ih =>
    intro hnd i
    rw [List.flatMap_cons, List.filter_append]
    rw [List.nodup_cons] at hnd
    by_cases hij : i = j
    · subst hij
      rw [if_pos (List.mem_cons_self i rest)]
      have h1 : (f i).filter (fun l => l.line == i) = f i :=
        List.filter_eq_self.mpr (fun l hl => by rw [hf i l hl]; exact beq_self_eq_true i)
      have h2 : ((rest.flatMap f).filter (fun l => l.line == i)) = [] := by
        rw [ih hnd.2 i, if_neg hnd.1]
      rw [h1, h2, List.append_nil]
    · have h1 : (f j).filter (fun l => l.line == i) = [] := by
        rw [List.filter_eq_nil_iff]
        intro l hl
        rw [hf j l hl]
        simp only [beq_iff_eq]
        omega
      rw [h1, List.nil_append, ih hnd.2 i]
      by_cases hmem : i ∈ rest
      · rw [if_pos hmem, if_pos (List.mem_cons_of_mem j hmem)]
      · rw [if_neg hmem, if_neg (by
          intro hc
          rcases List.mem_cons.mp hc with h | h
          · exact hij h
          · exact hmem h)]

theorem labelFor_pos {constants : List (ℕ × List ℕ)} {i : ℕ} (h : 0 < constants.length) :
    labelFor constants i = constants.lookup i := by
  unfold labelFor
  rw [if_pos h]

theorem labelFor_nil (i : ℕ) : labelFor [] i = lineLabels[i]? := by
  unfold labelFor
  rw [if_neg (by simp)]

theorem labelLensList_self {i : ℕ} {lbl : List ℕ} (hemp : lbl.isEmpty = false) :
    (⟨i, labelTitle lbl, lbl⟩ : CodeLens) ∈ labelLensList i (some lbl) := by
  simp only [labelLensList]
  rw [if_neg (by rw [hemp]; exact Bool.false_ne_true)]
  exact List.mem_cons_self _ _

theorem lineLabels_ne_empty : ∀ lbl ∈ lineLabels, lbl.isEmpty = false := by decide

theorem lineLabels_length : lineLabels.length = 16 := by decide

/-- Claim C6: for every valid line i the code lens adapter always emits the
index token (the decimal text of i); the label token is resolved from the
external constants map by value i when that map is non-empty, else from the
static 16-entry table by position; with no external source and i at least 16
no label token is emitted while the index token still is. -/
theorem provideCodeLenses_spec (lines : List (List ℕ)) (constants : List (ℕ × List ℕ))
    (i : ℕ) (hi : i < lines.length) (hhex : hexRegexI (jsTrim (lines.getD i [])) = true) :
    (∃ l ∈ provideCodeLenses lines constants, l.line = i ∧ l.arg = toString10 i) ∧
    (∀ lbl, 0 < constants.length → constants.lookup i = some lbl → lbl.isEmpty = false →
      ∃ l ∈ provideCodeLenses lines constants, l.line = i ∧ l.arg = lbl) ∧
    (constants = [] → ∀ lbl, lineLabels[i]? = some lbl →
      ∃ l ∈ provideCodeLenses lines constants, l.line = i ∧ l.arg = lbl) ∧
    (constants = [] → 16 ≤ i →
      ∀ l ∈ provideCodeLenses lines constants, l.line = i → l.arg = toString10 i) := by
  have hforline : ∀ l ∈ lensesForLine lines constants i,
      l ∈ provideCodeLenses lines constants := by
    intro l hl
    unfold provideCodeLenses
    rw [List.mem_flatMap]
    exact ⟨i, List.mem_range.mpr hi, hl⟩
  have hhead : (⟨i, numTitle i, toString10 i⟩ : CodeLens) ∈ lensesForLine lines constants i := by
    unfold lensesForLine
    rw [if_pos hhex]
    exact List.mem_cons_self _ _
  refine ⟨⟨⟨i, numTitle i, toString10 i⟩, hforline _ hhead, rfl, rfl⟩, ?_, ?_, ?_⟩
  · intro lbl hver hlook hemp
    refine ⟨⟨i, labelTitle lbl, lbl⟩, hforline _ ?_, rfl, rfl⟩
    unfold lensesForLine
    rw [if_pos hhex]
    apply List.mem_cons_of_mem
    rw [labelFor_pos hver, hlook]
    exact labelLensList_self hemp
  · rintro rfl lbl hlook
    refine ⟨⟨i, labelTitle lbl, lbl⟩, hforline _ ?_, rfl, rfl⟩
    unfold lensesForLine
    rw [if_pos hhex]
    apply List.mem_cons_of_mem
    rw [labelFor_nil, hlook]
    exact labelLensList_self (lineLabels_ne_empty lbl (List.getElem?_mem hlook))
  · rintro rfl h16 l hl hline
    have hchar := filter_line_flatMap (lensesForLine lines ([] : List (ℕ × List ℕ)))
      (fun j l hl => lensesForLine_line hl) (List.range lines.length)
      (List.nodup_range _) i
    rw [if_pos (List.mem_range.mpr hi)] at hchar
    have hmem : l ∈ lensesForLine lines [] i := by
      rw [← hchar, List.mem_filter]
      exact ⟨hl, by rw [hline]; exact beq_self_eq_true i⟩
    unfold lensesForLine at hmem
    rw [if_pos hhex] at hmem
    rcases List.mem_cons.mp hmem with rfl | h2
    · rfl
    · obtain ⟨lbl, hsome, rfl⟩ := labelLensList_mem h2
      rw [labelFor_nil, List.getElem?_eq_none (by rw [lineLabels_length]; omega)] at hsome
      exact Option.noConfusion hsome

/-- Witness for C6 at the one-line document ["FF00AA"] with no constants
source: the index lens for line 0 is emitted. -/
theorem provideCodeLenses_spec_witness :
    ∃ l ∈ provideCodeLenses [strCP "FF00AA"] [], l.line = 0 ∧ l.arg = toString10 0 :=
  (provideCodeLenses_spec [strCP "FF00AA"] [] 0 (by decide) (by decide)).1

/-- Counterexample to C8: in the copy handler of src/extension.js:95-101 the
clipboard write is not awaited, so a failing write (first argument false)
still produces only the "Copied" confirmation and no error notification —
against the claim that an error notification is shown exactly when the
clipboard write fails. -/
theorem copyLabelSync_no_error_on_failure :
    copyLabelSync false (strCP "pyxel.COLOR_RED") =
      [Notification.info (copiedMsg (strCP "pyxel.COLOR_RED"))] ∧
    ∀ n ∈ copyLabelSync false (strCP "pyxel.COLOR_RED"), n.isError = false := by
  exact ⟨rfl, by decide⟩

/-- Claim C8 (amended): the try/catch copy handler of src/unnamed/part_000
never raises (it is a total function into notification lists) and shows
exactly one notification: the error notification exactly when the clipboard
write fails and the confirmation exactly when it succeeds; the handler of
src/extension.js fires the write without awaiting it and always shows only
the confirmation, surfacing no error. -/
theorem copyLabel_spec (ok : Bool) (err textToCopy : List ℕ) :
    ((∃ n ∈ copyLabelAsync ok err textToCopy, n.isError = true) ↔ ok = false) ∧
    ((∃ n ∈ copyLabelAsync ok err textToCopy, n.isError = false) ↔ ok = true) ∧
    (copyLabelAsync ok err textToCopy).length = 1 ∧
    (ok = false → copyLabelAsync ok err textToCopy =
      [Notification.error (copyFailedMsg err)]) ∧
    (ok = true → copyLabelAsync ok err textToCopy =
      [Notification.info (copiedMsg textToCopy)]) ∧
    copyLabelSync ok textToCopy = [Notification.info (copiedMsg textToCopy)] := by
  cases ok <;>
    simp [copyLabelAsync, copyLabelSync, Notification.isError]

/-- Witness for C8 (amended) at a failing write. -/
theorem copyLabel_spec_witness :
    ∃ n ∈ copyLabelAsync false (strCP "device busy") (strCP "pyxel.COLOR_RED"),
      n.isError = true :=
  (copyLabel_spec false (strCP "device busy") (strCP "pyxel.COLOR_RED")).1.mpr rfl
